import Mathlib

/-!
Verification of the flask-directory-listing repository.

The repository contains three near-duplicate server variants:
`src/app.py` ("app"), `src/src/flask-directory-listing/__main__.py` ("dash")
and `src/src/flask_directory_listing/__main__.py` ("us", underscore).
This file shallowly embeds their pure logic: POSIX path canonicalisation
and the containment checks, the upload destination validation, the
recursive zip walk, the temporary-file cleanup control flow, the listing
sort engine, the sort-link computation, the size formatter and the two
query-string parameter readers.  All definitions are executable and are
translated from the Python source; functions from the Python standard
library (`posixpath.normpath`, `os.path.join`, `str.startswith`,
`pathlib.Path.is_relative_to`, `urllib.parse.parse_qs`) are embedded
following their documented semantics at the character level (ASCII; the
symlink-free lexical reading of `Path.resolve`, which is what the spec's
"canonicalize" denotes).
-/

namespace FDL

/-- `"x/y".split(sep)` semantics: `splitChar c l` splits `l` at every
occurrence of `c`; the empty list splits to `[[]]`, and separators at the
edges produce empty components, exactly like Python's `str.split(sep)`. -/
def splitChar (sep : Char) : List Char → List (List Char)
  | [] => [[]]
  | c :: cs =>
    let r := splitChar sep cs
    if c = sep then [] :: r
    else
      match r with
      | h :: t => (c :: h) :: t
      | [] => [[c]]

/-- `sep.join(parts)` semantics. -/
def joinSep (sep : Char) : List (List Char) → List Char
  | [] => []
  | [x] => x
  | x :: y :: xs => x ++ sep :: joinSep sep (y :: xs)

/-- `s.startswith(pre)` on Python strings: raw character-level comparison,
with no notion of path separators. -/
def pyStartswith (s pre : String) : Bool :=
  pre.data.isPrefixOf s.data

/-- One step of the `posixpath.normpath` component loop.  The accumulator is
kept reversed (head = latest component). `absPath` records whether the input
started with a slash. -/
def normStep (absPath : Bool) (acc : List (List Char)) (comp : List Char) :
    List (List Char) :=
  if comp == [] || comp == ['.'] then acc
  else if comp != ['.', '.'] || (!absPath && acc.isEmpty)
      || (match acc with | c :: _ => c == ['.', '.'] | [] => false) then
    comp :: acc
  else acc.tail

/-- `posixpath.normpath`: collapse separators and `.` components and
resolve `..` lexically, keeping the POSIX special case of exactly two
leading slashes. -/
def pyNormpath (s : String) : String :=
  let cs := s.data
  if cs.isEmpty then "." else
  let slashes : Nat :=
    if cs.take 2 == ['/', '/'] && cs.take 3 != ['/', '/', '/'] then 2
    else if cs.take 1 == ['/'] then 1 else 0
  let comps := splitChar '/' cs
  let newComps := (comps.foldl (normStep (slashes != 0)) []).reverse
  let out := List.replicate slashes '/' ++ joinSep '/' newComps
  if out.isEmpty then "." else ⟨out⟩

/-- `posixpath.join a b` restricted to two arguments: an absolute second
argument replaces the first, otherwise the two are glued with a single
slash unless the first already ends in one (or is empty). -/
def pyJoin (a b : String) : String :=
  if b.data.head? = some '/' then b
  else if a.data.isEmpty || a.data.getLast? = some '/' then a ++ b
  else a ++ "/" ++ b

/-- The components of an absolute or relative path in the sense of
`pathlib.PurePosixPath.parts`: a leading `"/"` anchor followed by the
nonempty components.  Inputs here are already canonical (no `.`/`..`),
which is how the source uses it (`SERVE_ROOT` is resolved at startup and
candidates go through `resolve()`). -/
def pathParts (s : String) : List (List Char) :=
  let comps := (splitChar '/' s.data).filter (fun c => !c.isEmpty)
  if s.data.head? = some '/' then ['/'] :: comps else comps

/-- Separator-aware descendant test, `candidate.is_relative_to(root)` of
`pathlib`: the parts of `root` are a leading run of the parts of
`candidate`.  This is also the spec's "descendant of `R` under
separator-aware prefix comparison". -/
def isDescendant (root cand : String) : Bool :=
  (pathParts root).isPrefixOf (pathParts cand)

/-- `inside_root` of the underscore variant: resolve the candidate (here:
lexical canonicalisation, the symlink-free reading of `Path.resolve`) and
test `is_relative_to(root)`. -/
def inside_root (root cand : String) : Bool :=
  isDescendant root (pyNormpath cand)

/-- The containment test of `app.py:directory_listing` (lines 213-218) and
of the dash variant (lines 234-239): join the attacker-controlled subpath
onto the root, `normpath` it, and accept when the result merely
`startswith` the normalised root as a raw string.  `true` means the
request proceeds to be served. -/
def startswithCheck (root subpath : String) : Bool :=
  pyStartswith (pyNormpath (pyJoin root subpath)) (pyNormpath root)

/-- The canonicalised target that all three variants derive from the
request subpath. -/
def resolvedTarget (root subpath : String) : String :=
  pyNormpath (pyJoin root subpath)

/-- `posixpath.basename`: everything after the last slash. -/
def pyBasename (p : String) : String :=
  ⟨(p.data.reverse.takeWhile (fun c => c != '/')).reverse⟩

/-- `posixpath.dirname`: everything up to and including the last slash,
with trailing slashes stripped unless the head consists of slashes only. -/
def pyDirname (p : String) : String :=
  let hd := (p.data.reverse.dropWhile (fun c => c != '/')).reverse
  if hd.isEmpty then ""
  else if hd.all (fun c => c == '/') then ⟨hd⟩
  else ⟨(hd.reverse.dropWhile (fun c => c == '/')).reverse⟩

/-- The normalisation both upload handlers apply to the client-supplied
relative destination: `path.replace("\\", "/").lstrip("/")`. -/
def normalizeRel (p : String) : String :=
  ⟨(p.data.map (fun c => if c == '\\' then '/' else c)).dropWhile
    (fun c => c == '/')⟩

/-- Outcome of an upload request: HTTP status, the directory the handler
created (if it reached its `makedirs`/`mkdir` call), and the file it
saved (if it reached `save`). -/
structure UploadResult where
  status : Nat
  createdDir : Option String
  savedFile : Option String
deriving DecidableEq

/-- `upload_file` of the dash variant (lines 349-401), validation and
placement given the already-validated listing directory `fullPath`
(normpathed) and the raw form `path` field: normalise the relative path;
when it contains a slash, `normpath`-join the directory part, check it
with raw `startswith`, then create it with `makedirs`; finally
`normpath`-join the file name and re-check with raw `startswith` before
saving.  Directory creation happens before the final check. -/
def upload_dash (fullPath relRaw : String) : UploadResult :=
  let rel := normalizeRel relRaw
  if rel.data.contains '/' then
    let targetDir := pyNormpath (pyJoin fullPath (pyDirname rel))
    if !pyStartswith targetDir fullPath then ⟨400, none, none⟩
    else
      let filePath := pyNormpath (pyJoin targetDir (pyBasename rel))
      if !pyStartswith filePath fullPath then ⟨400, some targetDir, none⟩
      else ⟨200, some targetDir, some filePath⟩
  else
    let filePath := pyNormpath (pyJoin fullPath rel)
    if !pyStartswith filePath fullPath then ⟨400, none, none⟩
    else ⟨200, none, some filePath⟩

/-- `upload_endpoint` of the underscore variant (lines 250-261): normalise
the relative path, resolve it against the target directory and re-check
containment in the configured root with `inside_root` before any
directory is created or any byte written. -/
def upload_us (root targetDir relRaw : String) : UploadResult :=
  let rel := normalizeRel relRaw
  let destination := pyNormpath (pyJoin targetDir rel)
  if !inside_root root destination then ⟨400, none, none⟩
  else ⟨200, some (pyDirname destination), some destination⟩

/-! ### Directory trees, the listing scan and the zip walk -/

/-- A snapshot of a directory subtree: file contents are irrelevant to the
claims, only names and nesting. -/
inductive FSTree where
  | file (name : String)
  | dir (name : String) (children : List FSTree)

/-- `name.startswith(".")`. -/
def dotName (s : String) : Bool :=
  match s.data with
  | '.' :: _ => true
  | _ => false

/-- The plain file names among a directory's children, in scan order
(the `files` component of an `os.walk` triple). -/
def filesOf : List FSTree → List String
  | [] => []
  | FSTree.file n :: ts => n :: filesOf ts
  | FSTree.dir _ _ :: ts => filesOf ts

/-- All child names, files and directories alike (`os.listdir` /
`Path.iterdir`). -/
def childNames : List FSTree → List String
  | [] => []
  | FSTree.file n :: ts => n :: childNames ts
  | FSTree.dir n _ :: ts => n :: childNames ts

/-- The names a directory listing shows: every immediate child whose name
does not start with a dot (`directory_listing_data` lines 125-127,
`get_directory_listing` lines 139-144). -/
def listingNames (ts : List FSTree) : List String :=
  (childNames ts).filter (fun n => !dotName n)

/-- The recursion of the zip builders underneath the walk root
(`download_directory_as_zip`, lines 317-324 underscore / 487-498 dash):
`os.walk` descends into every subdirectory - including dot-directories,
since the `dirs` list is never pruned - and only the per-file loop skips
names starting with a dot.  `pre` is the path of the current directory
relative to the walk root; each emitted entry is the archive-internal
relative path of one file. -/
def walkForest (pre : List String) : List FSTree → List (List String)
  | [] => []
  | FSTree.file _ :: ts => walkForest pre ts
  | FSTree.dir n cs :: ts =>
    ((filesOf cs).filter (fun f => !dotName f)).map (fun f => (pre ++ [n]) ++ [f])
      ++ walkForest (pre ++ [n]) cs
      ++ walkForest pre ts
termination_by ts => sizeOf ts
decreasing_by all_goals (simp; try omega)

/-- All archive entries for a walk rooted at a directory with children
`ts`: the root's own non-dot files first (relative path is just the file
name), then the subdirectory subtrees in scan order. -/
def zipArchive (ts : List FSTree) : List (List String) :=
  ((filesOf ts).filter (fun f => !dotName f)).map (fun f => [f])
    ++ walkForest [] ts

/-! ### Temporary zip file lifecycle -/

/-- Outcome of an archive download once the temporary file has been
allocated: HTTP status, whether the temporary zip was deleted by the time
the request is over, and the archive delivered to the client (`none` when
the request aborts). -/
structure ZipResp where
  status : Nat
  tempDeleted : Bool
  delivered : Option (List String)
deriving DecidableEq

/-- Writing the entries into the zip: `failAt = some i` injects an I/O
error while writing entry `i` (the `Except.error` payload is the partial
archive on disk at that moment), `none` is a clean run. -/
def zipBuild (es : List String) (failAt : Option Nat) :
    Except (List String) (List String) :=
  match failAt with
  | none => Except.ok es
  | some i => if i < es.length then Except.error (es.take i) else Except.ok es

/-- `download_directory_as_zip` of the underscore variant (lines 314-335)
after temp allocation: on success `send_file` runs and
`response.call_on_close(os.unlink)` deletes the temp file once the
response finishes; on any exception the handler unlinks the temp file
and aborts with 500, so nothing is delivered. -/
def download_zip_us (es : List String) (failAt : Option Nat) : ZipResp :=
  match zipBuild es failAt with
  | Except.ok full => ⟨200, true, some full⟩
  | Except.error _ => ⟨500, true, none⟩

/-- `download_directory_as_zip` of the dash variant (lines 468-524) after
temp allocation: the success path registers `call_on_close(os.unlink)`,
but the `except` handler only prints and calls `abort(500)` - the
temporary zip file is not unlinked there (the `remove_file` helper it
defines is never invoked). -/
def download_zip_dash (es : List String) (failAt : Option Nat) : ZipResp :=
  match zipBuild es failAt with
  | Except.ok full => ⟨200, true, some full⟩
  | Except.error _ => ⟨500, false, none⟩

/-! ### The listing sort engine -/

/-- The per-entry data the sort keys read (`file_info` dict): raw name,
directory flag, byte size (0 for directories), modification instant and
the description (always empty in the source, kept as a field because it
is a sort key). -/
structure Entry where
  name : String
  isDirectory : Bool
  sizeBytes : Nat
  modified : Nat
  descr : String
deriving DecidableEq

/-- The four sort keys reachable through `sort_map`. -/
inductive SortKey where
  | name
  | modified
  | size
  | description
deriving DecidableEq

/-- Python string `<=`: code-point lexicographic comparison. -/
def strLeB : List Char → List Char → Bool
  | [], _ => true
  | _ :: _, [] => false
  | a :: as, b :: bs =>
    if a.toNat = b.toNat then strLeB as bs else decide (a.toNat < b.toNat)

/-- The comparison of the raw key values selected by `sort_by`. -/
def valLe : SortKey → Entry → Entry → Bool
  | SortKey.name, a, b => strLeB a.name.data b.name.data
  | SortKey.modified, a, b => decide (a.modified ≤ b.modified)
  | SortKey.size, a, b => decide (a.sizeBytes ≤ b.sizeBytes)
  | SortKey.description, a, b => strLeB a.descr.data b.descr.data

/-- The full sort relation.  With `apacheStyle = true` (Mixed) it is the
raw key comparison; otherwise (DirectoriesFirst) it is the lexicographic
comparison of the Python tuple `(not is_directory, value)` used in
`directory_listing_data` line 158 and `get_directory_listing` lines
184-193, which puts directories strictly before files. -/
def keyLe (k : SortKey) (apacheStyle : Bool) (a b : Entry) : Bool :=
  if apacheStyle then valLe k a b
  else if a.isDirectory = b.isDirectory then valLe k a b
  else a.isDirectory

/-- Stable insertion of `a` in front of the first element it compares
less-or-equal to. -/
def orderedInsertB (le : Entry → Entry → Bool) (a : Entry) :
    List Entry → List Entry
  | [] => [a]
  | b :: l => if le a b then a :: b :: l else b :: orderedInsertB le a l

/-- Stable sort.  Python's `list.sort` is Timsort; any two stable sorts by
the same total preorder produce the same list, so insertion sort with
insertion before the first strictly-later element is an exact model. -/
def insertionSortB (le : Entry → Entry → Bool) : List Entry → List Entry
  | [] => []
  | a :: l => orderedInsertB le a (insertionSortB le l)

/-- `entries.sort(key=sort_key)` of the listing engines. -/
def sortEntries (es : List Entry) (k : SortKey) (apacheStyle : Bool) :
    List Entry :=
  insertionSortB (keyLe k apacheStyle) es

/-- The full sort stage: sort ascending by key, then
`if sort_order == "D": entries.reverse()`. -/
def listingOrder (es : List Entry) (k : SortKey) (apacheStyle : Bool)
    (order : String) : List Entry :=
  let s := sortEntries es k apacheStyle
  if order == "D" then s.reverse else s

/-- `sort_map.get(sort_column, "name")` of all three variants. -/
def sortColumnKey (c : String) : SortKey :=
  if c == "N" then SortKey.name
  else if c == "M" then SortKey.modified
  else if c == "S" then SortKey.size
  else if c == "D" then SortKey.description
  else SortKey.name

/-! ### Sort-link computation -/

/-- The `new_order` logic of `sort_url` (underscore lines 166-172) and
`get_sort_url` (dash lines 201-223): clicking the active column flips the
order, any other column gets its first-click default - `"D"` for Name
under Mixed (apache) style, `"A"` otherwise.  `app.py`'s `get_sort_url`
(lines 183-199) is the `apacheStyle = true` instance of this function:
it has no style flag and always answers `"D"` for an inactive Name
column (its listing style is always Mixed). -/
def sortUrlOrder (apacheStyle : Bool) (column currentColumn currentOrder :
    String) : String :=
  if column == currentColumn then
    (if currentOrder == "A" then "D" else "A")
  else if column == "N" then (if apacheStyle then "D" else "A")
  else "A"

/-- The link the template receives: `f"?C={column};O={new_order}"`. -/
def sort_url (apacheStyle : Bool) (column currentColumn currentOrder :
    String) : String :=
  "?C=" ++ column ++ ";O=" ++ sortUrlOrder apacheStyle column currentColumn currentOrder

/-- Modelled from the spec: the per-column first-click default order -
"ascending for all columns except Name under Mixed style, which defaults
to descending". -/
def defaultColOrder (mixed : Bool) (column : String) : String :=
  if column == "N" then (if mixed then "D" else "A") else "A"

/-! ### Size formatting

The Python formatters divide by `1024.0` and print with `"%.1f"` /
`"%3.0f"`.  Every quotient involved is a dyadic rational whose numerator
is the byte count, so for counts below `2^53` the float arithmetic is
exact and the printed digits are those of the exact rational rounded
half-to-even (IEEE-754 `printf` semantics); the embedding therefore
computes with exact numerator/denominator pairs. -/

/-- Round `a / b` to the nearest integer, ties to even (`b > 0`). -/
def rheDiv (a b : Nat) : Nat :=
  let q := a / b
  let r := a % b
  if 2 * r < b then q
  else if 2 * r > b then q + 1
  else if q % 2 = 0 then q else q + 1

/-- `"%.1f" % (num / den)`: one rounded decimal place, no padding. -/
def fmtOneDec (num den : Nat) : String :=
  let t := rheDiv (10 * num) den
  toString (t / 10) ++ "." ++ toString (t % 10)

/-- Right-justify to a minimum field width with spaces, as Python's
`"%3d"` / `"%3.0f"` do. -/
def padLeft (w : Nat) (s : String) : String :=
  ⟨List.replicate (w - s.length) ' ' ++ s.data⟩

/-- `num / den < bound` on the exact rational (`den > 0`). -/
def qlt (num den bound : Nat) : Bool :=
  num < bound * den

/-- `format_size` of the underscore variant (lines 75-88): successive
exact divisions `size_k = size/1024`, `size_m = size_k/1024`,
`size_g = size_m/1024`, branching on `value < step` and `value < 10`. -/
def format_size (size : Nat) : String :=
  if size = 0 then "  0 "
  else if qlt size 1 1024 then padLeft 3 (toString size) ++ " "
  else if qlt size 1024 1024 then
    (if qlt size 1024 10 then fmtOneDec size 1024
     else padLeft 3 (toString (rheDiv size 1024))) ++ "K"
  else if qlt size (1024 * 1024) 1024 then
    (if qlt size (1024 * 1024) 10 then fmtOneDec size (1024 * 1024)
     else padLeft 3 (toString (rheDiv size (1024 * 1024)))) ++ "M"
  else
    (if qlt size (1024 * 1024 * 1024) 10 then fmtOneDec size (1024 * 1024 * 1024)
     else padLeft 3 (toString (rheDiv size (1024 * 1024 * 1024)))) ++ "G"

/-- `format_file_size` of `app.py` (lines 104-129) and the dash variant
(lines 101-126): the same output computed with direct integer threshold
comparisons (`size_bytes < 1024 * 1024`, ...), which is also the shape in
which the claim describes the formatter. -/
def format_file_size (sizeBytes : Nat) : String :=
  if sizeBytes = 0 then "  0 "
  else if sizeBytes < 1024 then padLeft 3 (toString sizeBytes) ++ " "
  else if sizeBytes < 1024 * 1024 then
    (if sizeBytes < 10 * 1024 then fmtOneDec sizeBytes 1024
     else padLeft 3 (toString (rheDiv sizeBytes 1024))) ++ "K"
  else if sizeBytes < 1024 * 1024 * 1024 then
    (if sizeBytes < 10 * (1024 * 1024) then fmtOneDec sizeBytes (1024 * 1024)
     else padLeft 3 (toString (rheDiv sizeBytes (1024 * 1024)))) ++ "M"
  else
    (if sizeBytes < 10 * (1024 * 1024 * 1024) then
        fmtOneDec sizeBytes (1024 * 1024 * 1024)
     else padLeft 3 (toString (rheDiv sizeBytes (1024 * 1024 * 1024)))) ++ "G"

/-! ### Query-string parameter reading -/

/-- Both variants first apply `query_string.replace(";", "&")`. -/
def replaceSemis (s : String) : String :=
  ⟨s.data.map (fun c => if c == ';' then '&' else c)⟩

/-- The `&`-separated segments after semicolon replacement. -/
def querySegs (s : String) : List (List Char) :=
  splitChar '&' (replaceSemis s).data

/-- The manual loop of `app.py` (lines 236-241) and the dash variant
(lines 264-268) keeps only segments containing `"="` and splits each at
the first `"="`; no decoding is applied. -/
def segKV (seg : List Char) : Option (String × String) :=
  if seg.contains '=' then
    some (⟨seg.takeWhile (fun c => c != '=')⟩,
      ⟨(seg.dropWhile (fun c => c != '=')).tail⟩)
  else none

/-- The key-value pairs the manual loop iterates over, in segment order. -/
def manualPairs (qs : String) : List (String × String) :=
  (querySegs qs).filterMap segKV

/-- `params[key] = value` in a loop then `params.get(key, dflt)`: later
duplicates overwrite earlier ones, so the lookup sees the last pair. -/
def manualGet (qs key dflt : String) : String :=
  match ((manualPairs qs).filter (fun p => p.1 == key)).getLast? with
  | some p => p.2
  | none => dflt

def isHexDigit (c : Char) : Bool :=
  (48 ≤ c.toNat && c.toNat ≤ 57) || (65 ≤ c.toNat && c.toNat ≤ 70)
    || (97 ≤ c.toNat && c.toNat ≤ 102)

def hexVal (c : Char) : Nat :=
  if c.toNat ≤ 57 then c.toNat - 48
  else if c.toNat ≤ 70 then c.toNat - 55
  else c.toNat - 87

/-- `urllib.parse.unquote_plus` at the character level (ASCII): `+`
becomes a space and `%xy` with two hex digits decodes to the code point
`16x + y`; a `%` not followed by two hex digits is kept as-is.  (The
UTF-8 multi-byte recombination of CPython is not modelled; the claims
only exercise ASCII data.) -/
def uqChars : List Char → List Char
  | [] => []
  | '+' :: rest => ' ' :: uqChars rest
  | '%' :: a :: b :: rest =>
    if isHexDigit a && isHexDigit b then
      Char.ofNat (16 * hexVal a + hexVal b) :: uqChars rest
    else '%' :: uqChars (a :: b :: rest)
  | '%' :: rest => '%' :: uqChars rest
  | c :: rest => c :: uqChars rest

def unquotePlus (s : String) : String :=
  ⟨uqChars s.data⟩

/-- The pairs produced by `urllib.parse.parse_qsl` with default options
on the semicolon-replaced query (underscore variant line 193): empty
segments and segments without `"="` are dropped, blank values are
dropped (`keep_blank_values=False`), names and values are
`unquote_plus`-decoded. -/
def pqsPairs (qs : String) : List (String × String) :=
  (querySegs qs).filterMap (fun seg =>
    if seg.contains '=' then
      let v := (seg.dropWhile (fun c => c != '=')).tail
      if v.isEmpty then none
      else some (unquotePlus ⟨seg.takeWhile (fun c => c != '=')⟩,
        unquotePlus ⟨v⟩)
    else none)

/-- `{k: v[0] for k, v in parse_qs(...).items() if v}.get(key, dflt)`:
`parse_qs` groups values in order of appearance, so `v[0]` is the value
of the first pair with that key. -/
def pqsGet (qs key dflt : String) : String :=
  match (pqsPairs qs).find? (fun p => p.1 == key) with
  | some p => p.2
  | none => dflt

/-- No percent-escape and no plus sign, the fragment of query strings on
which `unquote_plus` is the identity. -/
def noEnc (s : String) : Prop :=
  '%' ∉ s.data ∧ '+' ∉ s.data

instance (s : String) : Decidable (noEnc s) := by
  unfold noEnc; infer_instance

/-- Concrete entries used to exercise the sort engine: a plain file and
a directory. -/
def entA : Entry := ⟨"a.txt", false, 3, 100, ""⟩

def entD : Entry := ⟨"d", true, 0, 100, ""⟩

/-! ### Helper lemmas -/

/-- Every entry the zip walk emits below the root is some directory path
with a final file component that does not start with a dot; entries below
dot-directories are emitted all the same, because `os.walk`'s `dirs` list
is never pruned. -/
theorem walkForest_entries (pre : List String) (ts : List FSTree) :
    ∀ e ∈ walkForest pre ts, ∃ p f, e = p ++ [f] ∧ dotName f = false := by
  match ts with
  | [] => simp [walkForest]
  | FSTree.file n :: ts => simpa [walkForest] using walkForest_entries pre ts
  | FSTree.dir n cs :: ts =>
    intro e he
    rw [walkForest] at he
    rcases List.mem_append.mp he with h12 | h3
    · rcases List.mem_append.mp h12 with h1 | h2
      · obtain ⟨f, hf, heq⟩ := List.mem_map.mp h1
        exact ⟨pre ++ [n], f, heq.symm, by simpa using (List.mem_filter.mp hf).2⟩
      · exact walkForest_entries (pre ++ [n]) cs e h2
    · exact walkForest_entries pre ts e h3
termination_by sizeOf ts
decreasing_by all_goals (simp; try omega)

end FDL

namespace FDL

/-- Code-point comparison is total. -/
theorem strLeB_total : ∀ l1 l2 : List Char,
    strLeB l1 l2 = true ∨ strLeB l2 l1 = true := by
  intro l1
  induction l1 with
  | nil => intro l2; left; rfl
  | cons a as ih =>
    intro l2
    cases l2 with
    | nil => right; rfl
    | cons b bs =>
      rcases Nat.lt_trichotomy a.toNat b.toNat with hlt | heq | hgt
      · left; simp [strLeB, Nat.ne_of_lt hlt, hlt]
      · rcases ih bs with h | h
        · left; simp [strLeB, heq, h]
        · right; simp [strLeB, heq.symm, h]
      · right; simp [strLeB, Nat.ne_of_lt hgt, hgt]

/-- Code-point comparison is transitive. -/
theorem strLeB_trans : ∀ l1 l2 l3 : List Char,
    strLeB l1 l2 = true → strLeB l2 l3 = true → strLeB l1 l3 = true := by
  intro l1
  induction l1 with
  | nil => intro l2 l3 _ _; rfl
  | cons a as ih =>
    intro l2 l3 h12 h23
    cases l2 with
    | nil => simp [strLeB] at h12
    | cons b bs =>
      cases l3 with
      | nil => simp [strLeB] at h23
      | cons c cs =>
        by_cases hab : a.toNat = b.toNat <;> by_cases hbc : b.toNat = c.toNat
        · have h12a : strLeB as bs = true := by simpa [strLeB, hab] using h12
          have h23a : strLeB bs cs = true := by simpa [strLeB, hbc] using h23
          simp [strLeB, hab.trans hbc, ih bs cs h12a h23a]
        · simp only [strLeB, if_neg hbc] at h23
          have hbclt : b.toNat < c.toNat := by simpa using h23
          have hac : a.toNat < c.toNat := hab ▸ hbclt
          simp [strLeB, Nat.ne_of_lt hac, hac]
        · simp only [strLeB, if_neg hab] at h12
          have hablt : a.toNat < b.toNat := by simpa using h12
          have hac : a.toNat < c.toNat := hbc ▸ hablt
          simp [strLeB, Nat.ne_of_lt hac, hac]
        · simp only [strLeB, if_neg hab, if_neg hbc] at h12 h23
          have hac : a.toNat < c.toNat :=
            Nat.lt_trans (by simpa using h12) (by simpa using h23)
          simp [strLeB, Nat.ne_of_lt hac, hac]

theorem valLe_total (k : SortKey) (a b : Entry) :
    valLe k a b = true ∨ valLe k b a = true := by
  cases k <;> simp [valLe] <;>
    first
      | exact strLeB_total _ _
      | omega

theorem valLe_trans (k : SortKey) (a b c : Entry) :
    valLe k a b = true → valLe k b c = true → valLe k a c = true := by
  cases k <;> simp [valLe] <;>
    first
      | exact strLeB_trans _ _ _
      | omega

theorem keyLe_total (k : SortKey) (ap : Bool) (a b : Entry) :
    keyLe k ap a b = true ∨ keyLe k ap b a = true := by
  cases ap
  · by_cases h : a.isDirectory = b.isDirectory
    · rcases valLe_total k a b with hv | hv
      · left; simp [keyLe, h, hv]
      · right; simp [keyLe, h.symm, hv]
    · cases ha : a.isDirectory <;> cases hb : b.isDirectory <;>
        simp_all [keyLe]
  · simpa [keyLe] using valLe_total k a b

theorem keyLe_trans (k : SortKey) (ap : Bool) (a b c : Entry) :
    keyLe k ap a b = true → keyLe k ap b c = true → keyLe k ap a c = true := by
  intro hab hbc
  cases ap
  · cases ha : a.isDirectory <;> cases hb : b.isDirectory <;>
      cases hc : c.isDirectory <;> simp_all [keyLe] <;>
        exact valLe_trans k a b c hab hbc
  · simp only [keyLe, if_pos rfl] at hab hbc ⊢
    exact valLe_trans k a b c hab hbc

/-- If the comparison puts a file before a directory it is false, so a
true comparison propagates "is a file" forward under DirectoriesFirst. -/
theorem keyLe_false_of_dir_mismatch (k : SortKey) (a b : Entry)
    (h : keyLe k false a b = true) (ha : a.isDirectory = false) :
    b.isDirectory = false := by
  by_cases hd : a.isDirectory = b.isDirectory
  · rw [← hd, ha]
  · simp [keyLe, hd, ha] at h
    exact h.1

theorem mem_orderedInsertB (le : Entry → Entry → Bool) (a x : Entry) :
    ∀ l, x ∈ orderedInsertB le a l ↔ x = a ∨ x ∈ l := by
  intro l
  induction l with
  | nil => simp [orderedInsertB]
  | cons b t ih =>
    simp only [orderedInsertB]
    split
    · simp [or_left_comm]
    · simp [ih, or_left_comm]

theorem pairwise_orderedInsertB (le : Entry → Entry → Bool)
    (htot : ∀ x y, le x y = true ∨ le y x = true)
    (htr : ∀ x y z, le x y = true → le y z = true → le x z = true)
    (a : Entry) : ∀ l, l.Pairwise (fun x y => le x y = true) →
    (orderedInsertB le a l).Pairwise (fun x y => le x y = true) := by
  intro l
  induction l with
  | nil => simp [orderedInsertB]
  | cons b t ih =>
    intro hl
    rcases List.pairwise_cons.mp hl with ⟨hb, ht⟩
    simp only [orderedInsertB]
    split
    · refine List.pairwise_cons.mpr ⟨?_, hl⟩
      intro y hy
      rcases List.mem_cons.mp hy with rfl | hyt
      · assumption
      · exact htr a b y (by assumption) (hb y hyt)
    · refine List.pairwise_cons.mpr ⟨?_, ih ht⟩
      intro y hy
      rcases (mem_orderedInsertB le a y t).mp hy with rfl | hyt
      · rcases htot y b with h | h
        · simp_all
        · exact h
      · exact hb y hyt

theorem pairwise_insertionSortB (le : Entry → Entry → Bool)
    (htot : ∀ x y, le x y = true ∨ le y x = true)
    (htr : ∀ x y z, le x y = true → le y z = true → le x z = true) :
    ∀ l : List Entry,
      (insertionSortB le l).Pairwise (fun x y => le x y = true) := by
  intro l
  induction l with
  | nil => simp [insertionSortB]
  | cons a t ih => exact pairwise_orderedInsertB le htot htr a _ ih

theorem mem_insertionSortB (le : Entry → Entry → Bool) (x : Entry) :
    ∀ l, x ∈ insertionSortB le l ↔ x ∈ l := by
  intro l
  induction l with
  | nil => simp [insertionSortB]
  | cons a t ih => simp [insertionSortB, mem_orderedInsertB, ih]

/-- Stability on an all-tied list: when every pair compares
less-or-equal, the stable sort is the identity. -/
theorem insertionSortB_all_tied (le : Entry → Entry → Bool) :
    ∀ l, (∀ a ∈ l, ∀ b ∈ l, le a b = true) → insertionSortB le l = l := by
  intro l
  induction l with
  | nil => intro _; rfl
  | cons a t ih =>
    intro h
    have ht : insertionSortB le t = t :=
      ih (fun x hx y hy => h x (List.mem_cons_of_mem a hx) y
        (List.mem_cons_of_mem a hy))
    rw [insertionSortB, ht]
    cases t with
    | nil => rfl
    | cons b u =>
      rw [orderedInsertB,
        if_pos (h a (List.mem_cons_self a _) b
          (List.mem_cons_of_mem a (List.mem_cons_self b u)))]

/-! ### Claim theorems -/

/-- Claim C1.  The claim is right and two of the three variants are
wrong: the containment check of `app.py:directory_listing` (lines
213-218) and of the dash variant (lines 234-239) is a raw string
`startswith` after `normpath`, so the sibling directory `/srv/share-evil`
of the root `/srv/share` passes the check (`true` means the request is
served) even though the canonicalised target is not a descendant of the
root; the underscore variant's `inside_root` correctly rejects the same
request. -/
theorem app_startswith_check_admits_sibling :
    resolvedTarget "/srv/share" "../share-evil" = "/srv/share-evil" ∧
    startswithCheck "/srv/share" "../share-evil" = true ∧
    isDescendant "/srv/share" (resolvedTarget "/srv/share" "../share-evil")
      = false ∧
    inside_root "/srv/share" (resolvedTarget "/srv/share" "../share-evil")
      = false := by
  decide

/-- Claim C2.  The claim is right and the dash variant's `upload_file`
is wrong: for the escaping relative path `../share-evil/x.bin` its two
raw-`startswith` re-checks both pass, so it creates the directory
`/srv/share-evil` and saves the file `/srv/share-evil/x.bin` outside the
root (status 200), although that destination is not a descendant of the
root.  The claim's own example `../outside.bin` is rejected with nothing
created, and the underscore variant's `upload_endpoint` rejects the
sibling path before creating anything. -/
theorem upload_dash_creates_outside_root :
    upload_dash "/srv/share" "../share-evil/x.bin"
      = ⟨200, some "/srv/share-evil", some "/srv/share-evil/x.bin"⟩ ∧
    isDescendant "/srv/share" "/srv/share-evil/x.bin" = false ∧
    upload_dash "/srv/share" "../outside.bin" = ⟨400, none, none⟩ ∧
    upload_us "/srv/share" "/srv/share" "../share-evil/x.bin"
      = ⟨400, none, none⟩ ∧
    upload_us "/srv/share" "/srv/share" "../outside.bin"
      = ⟨400, none, none⟩ := by
  decide

/-- Claim C4.  The claim is right and the dash variant is wrong: its
`except` handler aborts with 500 without unlinking the temporary zip
(the `remove_file` helper it defines is never invoked), so an I/O error
while writing the first entry leaves the temp file on disk.  The
underscore variant deletes the temp file on both exit paths, and neither
variant ever delivers a truncated archive. -/
theorem dash_zip_temp_file_leaks_on_error :
    download_zip_dash ["a.txt"] (some 0) = ⟨500, false, none⟩ ∧
    (∀ (es : List String) (failAt : Option Nat),
      (download_zip_us es failAt).tempDeleted = true) ∧
    (∀ (es : List String) (failAt : Option Nat),
      (download_zip_us es failAt).delivered = none ∨
        (download_zip_us es failAt).delivered = some es) ∧
    (∀ (es : List String) (failAt : Option Nat),
      (download_zip_dash es failAt).delivered = none ∨
        (download_zip_dash es failAt).delivered = some es) := by
  refine ⟨by decide, ?_, ?_, ?_⟩ <;> intro es failAt <;>
    rcases failAt with _ | i <;>
      [skip; (by_cases h : i < es.length); skip; (by_cases h : i < es.length);
        skip; (by_cases h : i < es.length)] <;>
    simp [download_zip_us, download_zip_dash, zipBuild, *]

/-- Claim C3, counterexample: an archive built for a directory whose
child `.secret` is a dot-directory containing the plain file `b.txt`
does contain the entry `.secret/b.txt`, because the walk never prunes
dot-directories - only file names themselves are tested against a
leading dot. -/
theorem zip_includes_file_under_dot_directory :
    zipArchive [FSTree.dir ".secret" [FSTree.file "b.txt"], FSTree.file "a.txt"]
      = [["a.txt"], [".secret", "b.txt"]] ∧
    dotName ".secret" = true := by
  refine ⟨?_, by decide⟩
  simp [zipArchive, walkForest, filesOf, dotName]

/-- Claim C3, amended: listings never show a child whose name starts
with a dot, and every archive entry's final component (its file name) is
dot-free; but a file may still appear underneath a dot-directory, so the
exclusion holds for entry basenames, not for whole paths. -/
theorem listing_and_zip_basenames_never_dotted (ts : List FSTree) :
    (∀ n ∈ listingNames ts, dotName n = false) ∧
    (∀ e ∈ zipArchive ts, ∃ p f, e = p ++ [f] ∧ e.getLast? = some f ∧
      dotName f = false) := by
  constructor
  · intro n hn
    simpa using (List.mem_filter.mp hn).2
  · intro e he
    rcases List.mem_append.mp he with h1 | h2
    · obtain ⟨f, hf, heq⟩ := List.mem_map.mp h1
      exact ⟨[], f, heq.symm, by rw [← heq]; simp,
        by simpa using (List.mem_filter.mp hf).2⟩
    · obtain ⟨p, f, rfl, hfd⟩ := walkForest_entries [] ts e h2
      exact ⟨p, f, rfl, by simp, hfd⟩

/-- Claim C5, counterexample: under DirectoriesFirst style with
descending order the whole key-sorted list is reversed, so the directory
`d` ends up after the file `a.txt` - the claim's "a directory ...
appears first regardless ... of the requested order" fails for
descending requests. -/
theorem descending_listing_puts_directory_last :
    listingOrder [entA, entD] SortKey.name false "D" = [entA, entD] ∧
    listingOrder [entA, entD] SortKey.name false "A" = [entD, entA] ∧
    entA.isDirectory = false ∧ entD.isDirectory = true := by
  decide

/-- Claim C5, amended: under DirectoriesFirst style the key-sorted
sequence and hence the ascending listing place every directory before
every file (sorted by the tuple comparison, with the original entry set
preserved); the descending listing is the exact reversal of the
ascending one, so there directories follow all files. -/
theorem dirs_first_ascending_partition (es : List Entry) (k : SortKey) :
    (listingOrder es k false "A").Pairwise
      (fun a b => keyLe k false a b = true) ∧
    (listingOrder es k false "A").Pairwise
      (fun a b => a.isDirectory = false → b.isDirectory = false) ∧
    (∀ x, x ∈ listingOrder es k false "A" ↔ x ∈ es) ∧
    listingOrder es k false "D" = (listingOrder es k false "A").reverse := by
  have hA : listingOrder es k false "A" = sortEntries es k false := by
    simp [listingOrder]
  refine ⟨?_, ?_, ?_, ?_⟩
  · rw [hA]
    exact pairwise_insertionSortB (keyLe k false) (keyLe_total k false)
      (keyLe_trans k false) es
  · rw [hA]
    exact List.Pairwise.imp
      (fun h ha => keyLe_false_of_dir_mismatch k _ _ h ha)
      (pairwise_insertionSortB (keyLe k false) (keyLe_total k false)
        (keyLe_trans k false) es)
  · intro x
    rw [hA]
    exact mem_insertionSortB (keyLe k false) x es
  · rw [hA]
    simp [listingOrder]

/-- Witness for the amended C5 theorem at a concrete entry set. -/
theorem dirs_first_ascending_partition_witness :
    entD ∈ listingOrder [entA, entD] SortKey.name false "A" ↔
      entD ∈ [entA, entD] :=
  (dirs_first_ascending_partition [entA, entD] SortKey.name).2.2.1 entD

/-- Claim C7.  All variants apply "descending" by reversing the fully
key-sorted ascending sequence (`files.reverse()` after `files.sort`),
not by negating the comparator, and the sort is stable: on a list whose
entries all tie under the chosen key the ascending sort is the identity,
so the tie order survives and is exactly inverted by the reversal. -/
theorem descending_is_reverse_of_stable_ascending (es : List Entry)
    (k : SortKey) (ap : Bool) :
    listingOrder es k ap "D" = (listingOrder es k ap "A").reverse ∧
    ((∀ a ∈ es, ∀ b ∈ es, keyLe k ap a b = true) →
      listingOrder es k ap "A" = es ∧ listingOrder es k ap "D" = es.reverse) := by
  constructor
  · simp [listingOrder]
  · intro h
    have hs : sortEntries es k ap = es :=
      insertionSortB_all_tied (keyLe k ap) es h
    constructor <;> simp [listingOrder, sortEntries] at hs ⊢ <;> rw [hs]

/-- Witness for the C7 theorem: two distinct entries with identical name
keys keep their arrival order ascending and are exactly swapped by a
descending request. -/
theorem descending_is_reverse_of_stable_ascending_witness :
    listingOrder [⟨"t", false, 1, 5, ""⟩, ⟨"t", false, 2, 6, ""⟩]
        SortKey.name true "A"
      = [⟨"t", false, 1, 5, ""⟩, ⟨"t", false, 2, 6, ""⟩] ∧
    listingOrder [⟨"t", false, 1, 5, ""⟩, ⟨"t", false, 2, 6, ""⟩]
        SortKey.name true "D"
      = [⟨"t", false, 2, 6, ""⟩, ⟨"t", false, 1, 5, ""⟩] :=
  (descending_is_reverse_of_stable_ascending
    [⟨"t", false, 1, 5, ""⟩, ⟨"t", false, 2, 6, ""⟩] SortKey.name true).2
    (by decide)

/-- Claim C8.  Selecting the active column flips its order ("A" and "D"
exchange, a 2-cycle), and selecting an inactive column yields that
column's first-click default: ascending for Modified, Size and
Description; for Name, descending under Mixed (apache) style and
ascending under DirectoriesFirst style.  `app.py`'s variant is the
Mixed instance of the same table. -/
theorem sort_link_toggle_and_defaults (ap : Bool)
    (col cur ord : String) :
    (col = cur → ord = "A" → sortUrlOrder ap col cur ord = "D") ∧
    (col = cur → ord = "D" → sortUrlOrder ap col cur ord = "A") ∧
    (col = cur → ord = "A" ∨ ord = "D" →
      sortUrlOrder ap col cur (sortUrlOrder ap col cur ord) = ord) ∧
    (col ≠ cur → col = "N" ∨ col = "M" ∨ col = "S" ∨ col = "D" →
      sortUrlOrder ap col cur ord = defaultColOrder ap col) := by
  refine ⟨?_, ?_, ?_, ?_⟩
  · rintro rfl rfl
    simp [sortUrlOrder]
  · rintro rfl rfl
    simp [sortUrlOrder]
  · rintro rfl (rfl | rfl) <;> simp [sortUrlOrder]
  · intro hne hcols
    have hb : (col == cur) = false := beq_eq_false_iff_ne.mpr hne
    rcases hcols with rfl | rfl | rfl | rfl <;>
      simp [sortUrlOrder, defaultColOrder, hb]

/-- Witness for the C8 theorem: toggling the active Name column twice
under Mixed style, and the DirectoriesFirst default for an inactive Name
column. -/
theorem sort_link_toggle_and_defaults_witness :
    sortUrlOrder true "N" "N" (sortUrlOrder true "N" "N" "A") = "A" ∧
    sortUrlOrder false "N" "M" "A" = defaultColOrder false "N" :=
  ⟨(sort_link_toggle_and_defaults true "N" "N" "A").2.2.1 rfl (Or.inl rfl),
    (sort_link_toggle_and_defaults false "N" "M" "A").2.2.2 (by decide)
      (Or.inl rfl)⟩

/-- Claim C9.  Any sort-column value other than the four known letters
falls back to the name key through `sort_map.get(..., "name")`, and any
order value other than exactly `"D"` leaves the ascending sort
untouched (`if sort_order == "D": reverse`); the parameter handling has
no failure branch, so no error response can arise from it. -/
theorem invalid_sort_params_fall_back :
    (∀ c : String, c ≠ "N" → c ≠ "M" → c ≠ "S" → c ≠ "D" →
      sortColumnKey c = SortKey.name) ∧
    (∀ (es : List Entry) (k : SortKey) (ap : Bool) (o : String), o ≠ "D" →
      listingOrder es k ap o = sortEntries es k ap) := by
  constructor
  · intro c h1 h2 h3 h4
    simp [sortColumnKey, beq_eq_false_iff_ne.mpr h1,
      beq_eq_false_iff_ne.mpr h2, beq_eq_false_iff_ne.mpr h3,
      beq_eq_false_iff_ne.mpr h4]
  · intro es k ap o ho
    simp [listingOrder, beq_eq_false_iff_ne.mpr ho]

/-- Witness for the C9 theorem: the unknown column letter `"Q"` sorts by
name and the unknown order `"X"` is treated as ascending. -/
theorem invalid_sort_params_fall_back_witness :
    sortColumnKey "Q" = SortKey.name ∧
    listingOrder [entA] SortKey.name false "X"
      = sortEntries [entA] SortKey.name false :=
  ⟨invalid_sort_params_fall_back.1 "Q" (by decide) (by decide) (by decide)
      (by decide),
    invalid_sort_params_fall_back.2 [entA] SortKey.name false "X" (by decide)⟩

/-- Claim C6.  The underscore variant's successive-division formatter
and the threshold formatter of `app.py`/dash - whose shape is exactly
the claim's branch description (fixed placeholder at 0, width-3 integer
plus space below 1024, one rounded decimal below ten units else width-3
integer with the `K`/`M`/`G` suffix at each power of 1024) - agree on
every byte count, and produce the claim's four sample outputs.  The
branch clauses restate the claim's descriptions as equations on the
formatter. -/
theorem size_format_matches_spec :
    (∀ n : Nat, format_size n = format_file_size n) ∧
    format_file_size 0 = "  0 " ∧
    format_file_size 512 = "512 " ∧
    format_file_size 2048 = "2.0K" ∧
    format_file_size (15 * 1024 * 1024) = " 15M" ∧
    (∀ n : Nat, 0 < n → n < 1024 →
      format_file_size n = padLeft 3 (toString n) ++ " ") ∧
    (∀ n : Nat, 1024 ≤ n → n < 1024 * 1024 →
      format_file_size n = (if n < 10 * 1024 then fmtOneDec n 1024
        else padLeft 3 (toString (rheDiv n 1024))) ++ "K") ∧
    (∀ n : Nat, 1024 * 1024 ≤ n → n < 1024 * 1024 * 1024 →
      format_file_size n = (if n < 10 * (1024 * 1024) then
          fmtOneDec n (1024 * 1024)
        else padLeft 3 (toString (rheDiv n (1024 * 1024)))) ++ "M") ∧
    (∀ n : Nat, 1024 * 1024 * 1024 ≤ n →
      format_file_size n = (if n < 10 * (1024 * 1024 * 1024) then
          fmtOneDec n (1024 * 1024 * 1024)
        else padLeft 3 (toString (rheDiv n (1024 * 1024 * 1024)))) ++ "G") := by
  refine ⟨?_, by decide, by decide, by decide, by decide, ?_, ?_, ?_, ?_⟩
  · intro n
    simp only [format_size, format_file_size, qlt, decide_eq_true_eq]
  · intro n h1 h2
    unfold format_file_size
    rw [if_neg (by omega), if_pos (by omega)]
  · intro n h1 h2
    unfold format_file_size
    rw [if_neg (by omega), if_neg (by omega), if_pos (by omega)]
  · intro n h1 h2
    unfold format_file_size
    rw [if_neg (by omega), if_neg (by omega), if_neg (by omega),
      if_pos (by omega)]
  · intro n h1
    unfold format_file_size
    rw [if_neg (by omega), if_neg (by omega), if_neg (by omega),
      if_neg (by omega)]

/-- Witness for the C6 theorem: the kilobyte clause at 2048. -/
theorem size_format_matches_spec_witness :
    format_file_size 2048 = (if 2048 < 10 * 1024 then fmtOneDec 2048 1024
      else padLeft 3 (toString (rheDiv 2048 1024))) ++ "K" :=
  size_format_matches_spec.2.2.2.2.2.2.1 2048 (by decide) (by decide)

/-- Claim C10, counterexample: on the duplicate-key query `C=N&C=M`
the manual loop keeps the later value (`params[key] = value`
overwrites) while the `parse_qs` comprehension takes `v[0]`, the first
value - the two parameter readers disagree on the value of `C`. -/
theorem query_parsers_disagree_on_duplicate_keys :
    manualGet "C=N&C=M" "C" "N" = "M" ∧
    pqsGet "C=N&C=M" "C" "N" = "N" ∧
    manualGet "C=N&C=M" "C" "N" ≠ pqsGet "C=N&C=M" "C" "N" := by
  decide

/-- `unquote_plus` is the identity on strings free of `%` and `+`. -/
theorem uqChars_id : ∀ l : List Char, '%' ∉ l → '+' ∉ l → uqChars l = l := by
  intro l
  induction l with
  | nil => intro _ _; rfl
  | cons c rest ih =>
    intro hp hplus
    have hc1 : c ≠ '%' := fun h => hp (h ▸ List.mem_cons_self c rest)
    have hc2 : c ≠ '+' := fun h => hplus (h ▸ List.mem_cons_self c rest)
    have hrest := ih (fun h => hp (List.mem_cons_of_mem c h))
      (fun h => hplus (List.mem_cons_of_mem c h))
    rw [uqChars.eq_def]
    split <;> simp_all

theorem unquotePlus_id (s : String) (h : noEnc s) : unquotePlus s = s := by
  obtain ⟨h1, h2⟩ := h
  show String.mk (uqChars s.data) = s
  rw [uqChars_id s.data h1 h2]

/-- The `parse_qsl` pairs are the manual pairs with blank values dropped
and both components decoded. -/
theorem pqsPairs_eq_filterMap (qs : String) :
    pqsPairs qs = (manualPairs qs).filterMap (fun p =>
      if p.2 = "" then none else some (unquotePlus p.1, unquotePlus p.2)) := by
  rw [pqsPairs, manualPairs, List.filterMap_filterMap]
  apply List.filterMap_congr
  intro seg _
  rw [segKV]
  by_cases hc : seg.contains '=' = true
  · rw [if_pos hc, if_pos hc]
    simp only [Option.bind_eq_bind, Option.some_bind]
    by_cases hv : ((seg.dropWhile (fun c => c != '=')).tail).isEmpty = true
    · rw [if_pos hv, if_pos (by simpa [String.ext_iff] using hv)]
    · rw [if_neg hv, if_neg (by simpa [String.ext_iff] using hv)]
  · rw [if_neg hc, if_neg hc]
    rfl

/-- First-kept lookup on the blank-value-stripped list agrees with the
last occurrence on the raw list, provided at most one pair matches the
key and every matching pair has a nonempty value. -/
theorem find_filterMap_eq_getLast_filter (key : String) :
    ∀ l : List (String × String),
      (l.filter (fun q => q.1 == key)).length ≤ 1 →
      (∀ q ∈ l, q.1 = key → q.2 ≠ "") →
      (l.filterMap (fun q => if q.2 = "" then none
          else some (q.1, q.2))).find? (fun q => q.1 == key)
        = (l.filter (fun q => q.1 == key)).getLast? := by
  intro l
  induction l with
  | nil => intro _ _; rfl
  | cons p t ih =>
    intro hone hval
    have hval' : ∀ q ∈ t, q.1 = key → q.2 ≠ "" :=
      fun q hq => hval q (List.mem_cons_of_mem p hq)
    rw [List.filter_cons, List.filterMap_cons] at *
    by_cases hk : (p.1 == key) = true
    · have hv : p.2 ≠ "" := hval p (List.mem_cons_self p t) (beq_iff_eq.mp hk)
      rw [if_pos hk] at hone ⊢
      have htail : t.filter (fun q => q.1 == key) = [] := by
        rw [List.length_cons] at hone
        exact List.length_eq_zero.mp (by omega)
      rw [if_neg hv, htail]
      simp [List.find?_cons, hk, Prod.mk.eta]
    · rw [if_neg hk] at hone ⊢
      have ihres := ih hone hval'
      by_cases hv : p.2 = ""
      · rwa [if_pos hv]
      · rw [if_neg hv]
        simpa [List.find?_cons, hk] using ihres

/-- Claim C10, amended: on query strings whose kept `key=value` segments
contain no percent-escapes or plus signs, mention the looked-up key at
most once, and give it a nonempty value, the manual parameter loop of
`app.py`/dash and the `parse_qs` comprehension of the underscore variant
return the same value; the readings differ when a key repeats (last
versus first occurrence), when its value is blank (kept versus dropped),
or when decoding changes a name or value. -/
theorem query_parsers_agree_without_duplicates (qs key dflt : String)
    (henc : ∀ p ∈ manualPairs qs, noEnc p.1 ∧ noEnc p.2)
    (hone : ((manualPairs qs).filter (fun p => p.1 == key)).length ≤ 1)
    (hval : ∀ p ∈ manualPairs qs, p.1 = key → p.2 ≠ "") :
    manualGet qs key dflt = pqsGet qs key dflt := by
  rw [manualGet, pqsGet, pqsPairs_eq_filterMap]
  have hfm : (manualPairs qs).filterMap (fun p =>
      if p.2 = "" then none else some (unquotePlus p.1, unquotePlus p.2))
      = (manualPairs qs).filterMap (fun p =>
        if p.2 = "" then none else some (p.1, p.2)) := by
    apply List.filterMap_congr
    intro p hp
    rcases henc p hp with ⟨h1, h2⟩
    rw [unquotePlus_id p.1 h1, unquotePlus_id p.2 h2]
  rw [hfm, find_filterMap_eq_getLast_filter key (manualPairs qs) hone hval]

/-- Witness for the amended C10 theorem on the semicolon-separated query
`C=N;O=D`, looked up at `C`. -/
theorem query_parsers_agree_without_duplicates_witness :
    manualGet "C=N;O=D" "C" "N" = pqsGet "C=N;O=D" "C" "N" :=
  query_parsers_agree_without_duplicates "C=N;O=D" "C" "N" (by decide)
    (by decide) (by decide)

/-- Witness for the amended C3 theorem at a concrete tree and entry. -/
theorem listing_and_zip_basenames_never_dotted_witness :
    dotName "a.txt" = false ∧
    (∃ p f, ["a.txt"] = p ++ [f] ∧ (["a.txt"] : List String).getLast? = some f ∧
      dotName f = false) := by
  constructor
  · exact (listing_and_zip_basenames_never_dotted [FSTree.file "a.txt"]).1
      "a.txt" (by decide)
  · exact (listing_and_zip_basenames_never_dotted [FSTree.file "a.txt"]).2
      ["a.txt"] (by simp [zipArchive, walkForest, filesOf, dotName])

end FDL
